import Mathlib

/-!
Shallow embedding of the ISO editor core (`iso_core.cpp` / `iso_core.h`):
the disc-tree data model (`IsoNode`), the edit-session state (`ISOCore`
fields), and the operations the specification's claims are about
(`initNewIso`, `loadCueSheet`, `loadIso`, `saveIso`, `addFileToDirectory`,
`addFolderToDirectory`, `removeNode`, `importDirectory`).

Host-filesystem contents, the external CUE track parser and the external
ISO-reading library are collaborators of the code; they enter the
embedding as explicit inputs (file contents, parsed track lists, directory
listings), mirroring exactly how the C++ consumes their results.
Qt timestamps are modelled as natural numbers; QString operations used by
the code (case-insensitive compare, trim, split) are modelled on Lean
strings.
-/

/-- ASCII case folding on a code point (the fragment of Qt's Unicode case
folding the program's inputs exercise). -/
def foldCaseNat (n : Nat) : Nat := if 65 ≤ n ∧ n ≤ 90 then n + 32 else n

/-- Case-insensitive string equality, modelling
`QString::compare(.., Qt::CaseInsensitive) == 0`. -/
def qEqCI (a b : String) : Bool :=
  a.data.map (fun c => foldCaseNat c.toNat) == b.data.map (fun c => foldCaseNat c.toNat)

/-- Split a character list at every occurrence of a separator
(`QString::split` / `QString::section` field structure). -/
def splitChar (sep : Char) : List Char → List (List Char)
  | [] => [[]]
  | c :: cs =>
    let r := splitChar sep cs
    if c == sep then [] :: r
    else
      match r with
      | [] => [[c]]
      | g :: gs => (c :: g) :: gs

/-- Final path segment, modelling `QFileInfo::fileName()`. -/
def hostFileName (path : String) : String :=
  ⟨(splitChar '/' path.data).getLastD []⟩

/-- Directory part of a path, modelling `QFileInfo::dir().path()`. -/
def hostDirName (path : String) : String :=
  ⟨List.intercalate ['/'] ((splitChar '/' path.data).dropLast)⟩

/-- Path join, modelling `QDir::filePath`. -/
def joinPath (dir file : String) : String := dir ++ "/" ++ file

/-- File-name suffix after the last dot, modelling `QFileInfo::suffix()`
(empty when the file name contains no dot). -/
def hostSuffix (path : String) : String :=
  match splitChar '.' (hostFileName path).data with
  | [] => ""
  | [_] => ""
  | parts => ⟨parts.getLastD []⟩

/-- Whitespace test used by `QString::trimmed`. -/
def isSpaceChar (c : Char) : Bool := c.toNat == 32 || (9 ≤ c.toNat && c.toNat ≤ 13)

/-- Strip leading and trailing whitespace, modelling `QString::trimmed()`. -/
def qTrim (s : String) : String :=
  ⟨((s.data.dropWhile isSpaceChar).reverse.dropWhile isSpaceChar).reverse⟩

/-- Case-insensitive prefix test, modelling
`QString::startsWith(.., Qt::CaseInsensitive)`. -/
def startsWithCI (s p : String) : Bool :=
  qEqCI ⟨s.data.take p.data.length⟩ p

/-- Drop the first `n` characters, modelling `QString::mid(n)`. -/
def qMid (s : String) (n : Nat) : String := ⟨s.data.drop n⟩

/-- Scalar fields of an `IsoNode` (everything except `children`; the
`parent` back-pointer of the C++ struct is represented implicitly by tree
position, and the root's self-parent sentinel by the empty path). -/
structure NodeInfo where
  name : String
  isDirectory : Bool := false
  isHidden : Bool := false
  size : Nat := 0
  date : Nat := 0
  fileData : List Nat := []
  isNew : Bool := false
  lsn : Nat := 0
  isCueTrack : Bool := false
  cueBinFile : String := ""
  cueOffset : Nat := 0
deriving DecidableEq, Repr

/-- A node of the disc tree (`struct IsoNode`): scalar fields plus the
ordered list of owned children. -/
inductive IsoNode where
  | mk (info : NodeInfo) (children : List IsoNode)
deriving Repr

def IsoNode.info : IsoNode → NodeInfo
  | .mk i _ => i

def IsoNode.children : IsoNode → List IsoNode
  | .mk _ cs => cs

def IsoNode.name (n : IsoNode) : String := n.info.name

def IsoNode.isDirectory (n : IsoNode) : Bool := n.info.isDirectory

def IsoNode.withChildren : IsoNode → List IsoNode → IsoNode
  | .mk i _, cs => .mk i cs

instance : Inhabited IsoNode := ⟨.mk { name := "" } []⟩

mutual
/-- Number of nodes in a subtree (the node itself plus all descendants). -/
def countNodes : IsoNode → Nat
  | .mk _ cs => 1 + countList cs

/-- Number of nodes in a forest. -/
def countList : List IsoNode → Nat
  | [] => 0
  | c :: cs => countNodes c + countList cs
end

/-- The node reached from `t` by descending through the given child
indices; `[]` is `t` itself.  A valid path models a C++ `IsoNode*`
pointing into the tree. -/
def subtreeAt : IsoNode → List Nat → Option IsoNode
  | t, [] => some t
  | t, i :: p =>
    match t.children[i]? with
    | some c => subtreeAt c p
    | none => none

/-- Replace the element at an index (out-of-range leaves the list as is). -/
def modifyIdx (f : IsoNode → IsoNode) : List IsoNode → Nat → List IsoNode
  | [], _ => []
  | c :: cs, 0 => f c :: cs
  | c :: cs, i + 1 => c :: modifyIdx f cs i

/-- Remove the node reached by descending through path `p` and then
taking child index `idx` (the functional content of
`node->parent->children.removeOne(node); delete node`). -/
def removeAt : List Nat → IsoNode → Nat → IsoNode
  | [], t, idx => t.withChildren (t.children.eraseIdx idx)
  | j :: p, t, idx => t.withChildren (modifyIdx (fun c => removeAt p c j) t.children idx)

/-- The edit-session state: the private fields of class `ISOCore`
(`rootNode`, `modified`, `currentIsoPath`, `volumeDescriptor`,
`bootImagePath`, `efiBootImagePath`). -/
structure CoreState where
  root : IsoNode
  modified : Bool
  currentIsoPath : String
  volumeId : String
  systemId : String
  bootImagePath : String := ""
  efiBootImagePath : String := ""

/-- `ISOCore::initNewIso`: clear everything, then install a fresh
directory root named "/" and the default volume descriptor.  `now`
models `QDateTime::currentDateTime()`. -/
def initNewIso (now : Nat) : CoreState :=
  { root := .mk { name := "/", isDirectory := true, date := now, isNew := true } []
    modified := false
    currentIsoPath := ""
    volumeId := "NEW_ISO"
    systemId := "ISO_EDITOR" }

/-- A host file offered to `addFileToDirectory`: its path, its content if
it can be opened for reading (`none` models open failure), and its
modification time (`QFileInfo::lastModified`). -/
structure HostFile where
  path : String
  content : Option (List Nat)
  mtime : Nat

/-- The node built by `ISOCore::addFileToDirectory` for a host file
(`isNew = true`, content held in memory: the Pending origin). -/
def pendingFile (name : String) (bytes : List Nat) (mtime : Nat) : IsoNode :=
  .mk { name := name, date := mtime, size := bytes.length, isNew := true,
        fileData := bytes } []

/-- The collision scan of `ISOCore::addFileToDirectory`: delete the first
non-directory child whose name matches case-insensitively, then stop
(`takeAt` + `break`). -/
def removeFirstFileCI (name : String) : List IsoNode → List IsoNode
  | [] => []
  | c :: cs =>
    if !c.info.isDirectory && qEqCI c.info.name name then cs
    else c :: removeFirstFileCI name cs

/-- Body of `ISOCore::addFileToDirectory` after the file name has been
derived from the host path.  Returns the updated target node and the
updated `modified` flag. -/
def addFileCore (fname : String) (content : Option (List Nat)) (mtime : Nat)
    (t : IsoNode) (m : Bool) : IsoNode × Bool :=
  if !t.info.isDirectory then (t, m)
  else
    match content with
    | none => (t, m)
    | some bytes =>
      (t.withChildren (removeFirstFileCI fname t.children ++ [pendingFile fname bytes mtime]),
       true)

/-- `ISOCore::addFileToDirectory(filePath, targetNode)`. -/
def addFileToDirectory (f : HostFile) (t : IsoNode) (m : Bool) : IsoNode × Bool :=
  addFileCore (hostFileName f.path) f.content f.mtime t m

/-- Whether some child is a directory whose name matches
case-insensitively (the duplicate scan of `addFolderToDirectory`). -/
def hasDirCI (name : String) (cs : List IsoNode) : Bool :=
  cs.any fun c => c.info.isDirectory && qEqCI c.info.name name

/-- The node built by `ISOCore::addFolderToDirectory`. -/
def newFolder (name : String) (now : Nat) : IsoNode :=
  .mk { name := name, isDirectory := true, date := now, isNew := true } []

/-- `ISOCore::addFolderToDirectory(folderName, targetNode)`. -/
def addFolderToDirectory (folderName : String) (now : Nat)
    (t : IsoNode) (m : Bool) : IsoNode × Bool :=
  if !t.info.isDirectory then (t, m)
  else if hasDirCI folderName t.children then (t, m)
  else (t.withChildren (t.children ++ [newFolder folderName now]), true)

/-- `ISOCore::removeNode(node)`: the node is identified by its path of
child indices from the root; the empty path is the root itself (whose
C++ `parent` is the self-sentinel, so it is rejected by `node == rootNode`
just as a parentless node is rejected by `!node->parent`). -/
def removeNode (t : IsoNode) (m : Bool) (path : List Nat) : IsoNode × Bool :=
  match path with
  | [] => (t, m)
  | i :: p =>
    match subtreeAt t (i :: p) with
    | some _ => (removeAt p t i, true)
    | none => (t, m)

/-- One entry of a host directory listing as consumed by
`importDirectoryRecursive` via `QDir::entryInfoList`: a file with its
readable content (`none` = open failure) and modification time, or a
subdirectory with its own listing.  The listing order is the order of
this list. -/
inductive HostEntry where
  | file (name : String) (content : Option (List Nat)) (mtime : Nat)
  | dir (name : String) (entries : List HostEntry)

def HostEntry.name : HostEntry → String
  | .file n _ _ => n
  | .dir n _ => n

/-- Index of the first directory child with exactly (case-sensitively)
the given name — the `child->name == dirInfo.fileName()` lookup in
`importDirectoryRecursive`. -/
def findExactDirIdx (name : String) : List IsoNode → Option Nat
  | [] => none
  | c :: cs =>
    if c.info.isDirectory && c.info.name == name then some 0
    else (findExactDirIdx name cs).map (· + 1)

mutual
/-- `importDirectoryRecursive(core, sourcePath, targetParentNode)` for a
host directory with the given final path segment and listing: create the
folder, find the directory child bearing exactly that name, and recurse
into it; if no such child exists, return without importing. -/
def importDirRec (name : String) (entries : List HostEntry) (t : IsoNode)
    (m : Bool) (now : Nat) : IsoNode × Bool :=
  let r := addFolderToDirectory name now t m
  match findExactDirIdx name r.1.children with
  | none => r
  | some i =>
    match r.1.children[i]? with
    | none => r
    | some c =>
      let r2 := importEntries entries c r.2 now
      (r.1.withChildren (r.1.children.set i r2.1), r2.2)
termination_by (sizeOf entries, 1)
decreasing_by
  all_goals simp_wf
  all_goals first
    | exact Prod.Lex.right _ (by omega)
    | exact Prod.Lex.left _ _ (by omega)

/-- The entry loop of `importDirectoryRecursive`: files go through
`addFileToDirectory` (the host file's `fileName` is its entry name),
subdirectories recurse. -/
def importEntries (entries : List HostEntry) (t : IsoNode) (m : Bool)
    (now : Nat) : IsoNode × Bool :=
  match entries with
  | [] => (t, m)
  | .file n c mt :: es =>
    let r := addFileCore n c mt t m
    importEntries es r.1 r.2 now
  | .dir n ents :: es =>
    let r := importDirRec n ents t m now
    importEntries es r.1 r.2 now
termination_by (sizeOf entries, 0)
decreasing_by
  all_goals simp_wf
  all_goals first
    | exact Prod.Lex.right _ (by omega)
    | exact Prod.Lex.left _ _ (by omega)
end

/-- `ISOCore::importDirectory(dirPath, targetNode)` for a host directory
whose final path segment is `name` and whose listing is `entries`
(the `dirInfo.isDir()` guard holds by construction of the input). -/
def importDirectory (name : String) (entries : List HostEntry)
    (t : IsoNode) (m : Bool) (now : Nat) : IsoNode × Bool :=
  if !t.info.isDirectory then (t, m)
  else ((importDirRec name entries t m now).1, true)

/-- One track as produced by the external `CUEParser` library's
`next_track()` (the fields the loader reads). -/
structure CueTrack where
  track_number : Nat
  data_start : Nat
deriving DecidableEq, Repr

/-- Environment of one `loadCueSheet` call: the cue file's lines if it
can be opened (`none` models open failure), the external parser's track
sequence for the cue text, and whether / how large the companion binary
file at the resolved path is (`QFileInfo::exists` / `size`). -/
structure CueEnv where
  cueLines : Option (List String)
  tracks : List CueTrack
  binExists : Bool
  binLength : Nat

/-- The line scan of `loadCueSheet`: each trimmed line overwrites
`cueTitle` when it starts with TITLE (rest of line, trimmed, quotes
removed) and `binFile` when it starts with FILE (text between the first
two quotes). -/
def scanCue (lines : List String) : String × String :=
  lines.foldl
    (fun acc raw =>
      let line := qTrim raw
      let t := if startsWithCI line "TITLE"
               then ⟨(qTrim (qMid line 5)).data.filter (fun c => !(c == '"'))⟩
               else acc.1
      let b := if startsWithCI line "FILE"
               then ⟨(splitChar '"' (qTrim (qMid line 4)).data).getD 1 []⟩
               else acc.2
      (t, b))
    ("", "")

/-- Two-digit zero-padded decimal, modelling
`QString("%1").arg(n, 2, 10, QChar('0'))`. -/
def pad2 (n : Nat) : String := if n < 10 then "0" ++ toString n else toString n

/-- 64-bit wrap-around subtraction (`quint64` arithmetic). -/
def sub64 (a b : Nat) : Nat := (a % 2 ^ 64 + (2 ^ 64 - b % 2 ^ 64)) % 2 ^ 64

/-- The flat track node `loadCueSheet` appends under the root for one
parsed track (size filled in afterwards). -/
def cueTrackNode (tr : CueTrack) (binPath : String) : IsoNode :=
  .mk { name := "Track " ++ pad2 tr.track_number ++ ".wav",
        isCueTrack := true, cueBinFile := binPath,
        cueOffset := tr.data_start * 2352 } []

/-- The size back-fill loop of `loadCueSheet`: every track's size is the
next track's offset minus its own; the last track's size is the
companion binary's length minus its offset when that file exists,
otherwise it stays 0. -/
def backfillSizes (binExists : Bool) (binLength : Nat) : List IsoNode → List IsoNode
  | [] => []
  | [n] =>
    if binExists then
      [.mk { n.info with size := sub64 binLength n.info.cueOffset } n.children]
    else [n]
  | a :: b :: rest =>
    .mk { a.info with size := sub64 b.info.cueOffset a.info.cueOffset } a.children
      :: backfillSizes binExists binLength (b :: rest)

/-- `ISOCore::loadCueSheet(filePath)`. -/
def loadCueSheet (s : CoreState) (filePath : String) (env : CueEnv)
    (now : Nat) : CoreState × Bool :=
  match env.cueLines with
  | none => (s, false)
  | some lines =>
    let scan := scanCue lines
    if scan.2 == "" then (s, false)
    else
      let binPath := joinPath (hostDirName filePath) scan.2
      let fresh := initNewIso now
      let nodes := env.tracks.map (fun tr => cueTrackNode tr binPath)
      let nodes := backfillSizes env.binExists env.binLength nodes
      ({ fresh with
           volumeId := scan.1
           root := fresh.root.withChildren nodes
           currentIsoPath := filePath
           modified := false }, true)

/-- One entry of the reading collaborator's directory listing
(`ISO9660::IFS::readdir`): name, timestamp, and either file data
(logical sector number and byte size) or a nested listing. The
pseudo-entries "." and ".." appear in listings and are skipped by
`buildNodeTree`. -/
inductive IsoEntry where
  | file (name : String) (lsn : Nat) (size : Nat) (time : Nat)
  | dir (name : String) (time : Nat) (entries : List IsoEntry)

def IsoEntry.name : IsoEntry → String
  | .file n _ _ _ => n
  | .dir n _ _ => n

/-- `buildNodeTree`: one `IsoNode` per listing entry, skipping "." and
"..", recursing into directories; children appended in listing order. -/
def buildNodes : List IsoEntry → List IsoNode
  | [] => []
  | e :: es =>
    if e.name == "." || e.name == ".." then buildNodes es
    else
      (match e with
       | .file n lsn sz tm =>
         IsoNode.mk { name := n, size := sz, lsn := lsn, date := tm } []
       | .dir n tm ents =>
         IsoNode.mk { name := n, isDirectory := true, date := tm }
           (buildNodes ents)) :: buildNodes es

/-- Environment of one `loadIso` call on a non-cue path: `none` models
`fs.open` failure; otherwise the volume id and system id (when the
library reports them) and the root directory listing. -/
structure IsoEnv where
  image : Option (Option String × Option String × List IsoEntry)

/-- `ISOCore::loadIso(filePath)`.  A path with suffix "cue"
(case-insensitively) is delegated to `loadCueSheet`. -/
def loadIso (s : CoreState) (filePath : String) (cueEnv : CueEnv)
    (isoEnv : IsoEnv) (now : Nat) : CoreState × Bool :=
  if qEqCI (hostSuffix filePath) "cue" then loadCueSheet s filePath cueEnv now
  else
    let fresh := initNewIso now
    match isoEnv.image with
    | none => (initNewIso now, false)
    | some (volId, sysId, entries) =>
      let vId := match volId with
                 | some v => qTrim v
                 | none => fresh.volumeId
      let sId := match sysId with
                 | some v => qTrim v
                 | none => fresh.systemId
      ({ fresh with
           volumeId := vId
           systemId := sId
           root := .mk { fresh.root.info with isNew := false } (buildNodes entries)
           currentIsoPath := filePath
           modified := false }, true)

/-- Environment of one `saveIso` call: validity of the scoped temporary
directory, its path, success of `writeTreeToDisk`, success of the two
boot-image copies, and the `genisoimage` subprocess outcome
(`finished = false` models launch failure / never finishing;
`exitCode` is its exit status otherwise). -/
structure SaveEnv where
  tempDirValid : Bool
  tempDirPath : String
  writeOk : Bool
  bootCopyOk : Bool
  efiCopyOk : Bool
  finished : Bool
  exitCode : Nat

/-- The `genisoimage` argument list built by `ISOCore::saveIso`. -/
def genArgs (s : CoreState) (filePath : String) (useUdf makeHybrid : Bool)
    (env : SaveEnv) : List String :=
  ["-o", filePath, "-R", "-J", "-V", s.volumeId, "-sysid", s.systemId]
    ++ (if useUdf then ["-udf"] else [])
    ++ (if s.bootImagePath ≠ "" ∧ env.bootCopyOk then
          ["-b", hostFileName s.bootImagePath, "-no-emul-boot"]
        else [])
    ++ (if s.efiBootImagePath ≠ "" then
          (if env.efiCopyOk then
             ["-eltorito-boot", hostFileName s.efiBootImagePath, "-no-emul-boot"]
               ++ (if makeHybrid then ["-isohybrid-gpt-basdat"] else [])
           else [])
        else if makeHybrid then ["-isohybrid-mbr"] else [])
    ++ [env.tempDirPath]

/-- `ISOCore::saveIso(filePath, useUdf, makeHybrid)`. -/
def saveIso (s : CoreState) (filePath : String) (useUdf makeHybrid : Bool)
    (env : SaveEnv) : CoreState × Bool :=
  if !env.tempDirValid then (s, false)
  else if !env.writeOk then (s, false)
  else if !env.finished || env.exitCode ≠ 0 then (s, false)
  else ({ s with modified := false, currentIsoPath := filePath }, true)

/-- Whether some child is a non-directory whose name matches
case-insensitively (what the `addFileToDirectory` collision scan looks
for). -/
def hasFileCI (name : String) (cs : List IsoNode) : Bool :=
  cs.any fun c => !c.info.isDirectory && qEqCI c.info.name name

/-- Number of children whose name matches case-insensitively. -/
def countCI (name : String) (cs : List IsoNode) : Nat :=
  (cs.filter fun c => qEqCI c.info.name name).length

/-- Sibling-name uniqueness: the invariant of the disc-tree data model
(no two siblings share a name case-insensitively). -/
def namesCIDistinct : List IsoNode → Bool
  | [] => true
  | c :: cs => cs.all (fun d => !qEqCI c.info.name d.info.name) && namesCIDistinct cs

theorem qEqCI_refl (a : String) : qEqCI a a = true := by
  simp [qEqCI]

theorem qEqCI_eq_iff (a b : String) :
    qEqCI a b = true ↔
      a.data.map (fun c => foldCaseNat c.toNat) = b.data.map (fun c => foldCaseNat c.toNat) := by
  simp [qEqCI]

theorem qEqCI_trans {a b c : String} (h1 : qEqCI a b = true) (h2 : qEqCI a c = true) :
    qEqCI b c = true := by
  rw [qEqCI_eq_iff] at h1 h2 ⊢
  rw [← h1, ← h2]

/-- Two case-insensitive matches of the same name match each other. -/
theorem qEqCI_of_both {a b n : String} (h1 : qEqCI a n = true)
    (h2 : qEqCI b n = true) : qEqCI a b = true := by
  rw [qEqCI_eq_iff] at h1 h2 ⊢
  rw [h1, h2]

/-- Under sibling uniqueness at most one child matches a name
case-insensitively. -/
theorem countCI_le_one (n : String) (cs : List IsoNode)
    (h : namesCIDistinct cs = true) : countCI n cs ≤ 1 := by
  induction cs with
  | nil => simp [countCI]
  | cons c cs ih =>
    simp only [namesCIDistinct, Bool.and_eq_true, List.all_eq_true] at h
    obtain ⟨hall, hrest⟩ := h
    by_cases hc : qEqCI c.info.name n = true
    · have hzero : (cs.filter fun d => qEqCI d.info.name n).length = 0 := by
        simp only [List.length_eq_zero, List.filter_eq_nil_iff]
        intro d hd hdn
        have hcd := qEqCI_of_both hc hdn
        have := hall d hd
        simp_all
      simp only [countCI, List.filter_cons, hc, if_pos, List.length_cons]
      omega
    · simp only [Bool.not_eq_true] at hc
      simp only [countCI, List.filter_cons, hc]
      exact ih hrest

/-- A case-insensitive directory match makes the match count positive. -/
theorem countCI_pos_of_hasDirCI (n : String) (cs : List IsoNode)
    (h : hasDirCI n cs = true) : 1 ≤ countCI n cs := by
  simp only [hasDirCI, List.any_eq_true, Bool.and_eq_true] at h
  obtain ⟨c, hc, _, hcn⟩ := h
  have : c ∈ cs.filter fun d => qEqCI d.info.name n :=
    List.mem_filter.mpr ⟨hc, hcn⟩
  exact List.length_pos_of_mem this

/-- With neither a directory match nor a file match there is no
case-insensitive match at all. -/
theorem countCI_zero (n : String) (cs : List IsoNode)
    (hd : hasDirCI n cs = false) (hf : hasFileCI n cs = false) :
    countCI n cs = 0 := by
  simp only [hasDirCI, List.any_eq_false, Bool.and_eq_true, not_and] at hd
  simp only [hasFileCI, List.any_eq_false, Bool.and_eq_true] at hf
  simp only [countCI, List.length_eq_zero, List.filter_eq_nil_iff]
  intro c hc hcn
  by_cases hdir : c.info.isDirectory = true
  · exact hd c hc hdir hcn
  · have := hf c hc
    simp_all

/-- The `addFileToDirectory` collision scan is the identity when no file
child matches. -/
theorem removeFirstFileCI_of_no_match (n : String) (cs : List IsoNode)
    (h : hasFileCI n cs = false) : removeFirstFileCI n cs = cs := by
  induction cs with
  | nil => rfl
  | cons c cs ih =>
    simp only [hasFileCI, List.any_cons, Bool.or_eq_false_iff] at h
    obtain ⟨hc, hrest⟩ := h
    have hrest2 : hasFileCI n cs = false := hrest
    simp [removeFirstFileCI, hc, ih hrest2]

example : countNodes (.mk { name := "/" } [.mk { name := "a" } []]) = 2 := by decide

/-- C9: a freshly created tree (after construction or `initNewIso`) has
exactly one node — a directory root with zero children — and the
session's modified flag is false. -/
theorem initNewIso_fresh_tree (now : Nat) :
    countNodes (initNewIso now).root = 1 ∧
    (initNewIso now).root.info.isDirectory = true ∧
    (initNewIso now).root.children = [] ∧
    (initNewIso now).modified = false :=
  ⟨rfl, rfl, rfl, rfl⟩

/-- C7: if the `genisoimage` subprocess fails to start, does not finish,
or exits with nonzero status, `saveIso` reports failure and leaves the
whole session state (tree, `modified`, `currentIsoPath`) unchanged; if
the subprocess succeeds, `modified` becomes false and `currentIsoPath`
becomes the new output path. -/
theorem saveIso_failure_and_success (s : CoreState) (filePath : String)
    (useUdf makeHybrid : Bool) (env : SaveEnv) :
    (env.finished = false ∨ env.exitCode ≠ 0 →
       saveIso s filePath useUdf makeHybrid env = (s, false)) ∧
    (env.tempDirValid = true → env.writeOk = true → env.finished = true →
       env.exitCode = 0 →
       saveIso s filePath useUdf makeHybrid env =
         ({ s with modified := false, currentIsoPath := filePath }, true)) := by
  constructor
  · intro h
    unfold saveIso
    rcases h with h | h <;> split_ifs with h1 h2 h3 <;> simp_all
  · intro h1 h2 h3 h4
    simp [saveIso, h1, h2, h3, h4]

/-- Witness for C7 at a concrete session and environment: a nonzero exit
code leaves the state untouched, exit code 0 updates `modified` and
`currentIsoPath`. -/
theorem saveIso_failure_and_success_witness :
    saveIso (initNewIso 0) "/out.iso" false false
        ⟨true, "/tmpdir", true, true, true, true, 1⟩ = (initNewIso 0, false) ∧
    saveIso (initNewIso 0) "/out.iso" false false
        ⟨true, "/tmpdir", true, true, true, true, 0⟩ =
      ({ initNewIso 0 with modified := false, currentIsoPath := "/out.iso" }, true) :=
  ⟨(saveIso_failure_and_success (initNewIso 0) "/out.iso" false false
      ⟨true, "/tmpdir", true, true, true, true, 1⟩).1 (Or.inr (by decide)),
   (saveIso_failure_and_success (initNewIso 0) "/out.iso" false false
      ⟨true, "/tmpdir", true, true, true, true, 0⟩).2 rfl rfl rfl rfl⟩

/-- C8: on a non-cue path whose image cannot be opened, `loadIso` resets
the session to a fresh empty tree and reports failure; whenever a load
completes (ISO branch or delegated cue branch), the resulting session
has `modified = false` and `currentIsoPath` equal to the opened path. -/
theorem loadIso_open_failure_and_completion (s : CoreState) (filePath : String)
    (cueEnv : CueEnv) (isoEnv : IsoEnv) (now : Nat) :
    (qEqCI (hostSuffix filePath) "cue" = false → isoEnv.image = none →
       loadIso s filePath cueEnv isoEnv now = (initNewIso now, false)) ∧
    (∀ s2 : CoreState, loadIso s filePath cueEnv isoEnv now = (s2, true) →
       s2.modified = false ∧ s2.currentIsoPath = filePath) := by
  constructor
  · intro hsuf himg
    simp [loadIso, hsuf, himg]
  · intro s2 h
    unfold loadIso at h
    split_ifs at h with hsuf
    · unfold loadCueSheet at h
      rcases hl : cueEnv.cueLines with _ | lines
      · rw [hl] at h; simp at h
      · rw [hl] at h
        simp only at h
        split_ifs at h with hbin
        · simp at h
        · have h1 := congrArg Prod.fst h
          simp only at h1
          subst h1
          constructor <;> rfl
    · rcases hi : isoEnv.image with _ | ⟨volId, sysId, entries⟩
      · rw [hi] at h; simp at h
      · rw [hi] at h
        simp only at h
        have h1 := congrArg Prod.fst h
        simp only at h1
        subst h1
        constructor <;> rfl

/-- Witness for C8: opening "/a.iso" with a failing reader resets to the
fresh tree; a successful open of an empty volume completes with
`modified = false` and the opened path recorded. -/
theorem loadIso_open_failure_and_completion_witness :
    loadIso (initNewIso 9) "/a.iso" ⟨none, [], false, 0⟩ ⟨none⟩ 3 =
      (initNewIso 3, false) ∧
    ((loadIso (initNewIso 9) "/a.iso" ⟨none, [], false, 0⟩
        ⟨some (none, none, [])⟩ 3).1.modified = false ∧
     (loadIso (initNewIso 9) "/a.iso" ⟨none, [], false, 0⟩
        ⟨some (none, none, [])⟩ 3).1.currentIsoPath = "/a.iso") :=
  ⟨(loadIso_open_failure_and_completion (initNewIso 9) "/a.iso"
      ⟨none, [], false, 0⟩ ⟨none⟩ 3).1 (by decide) rfl,
   (loadIso_open_failure_and_completion (initNewIso 9) "/a.iso"
      ⟨none, [], false, 0⟩ ⟨some (none, none, [])⟩ 3).2 _ rfl⟩
example : hostSuffix "/x/y/disc.CUE" = "CUE" := by decide
example : hostSuffix "/x/archive" = "" := by decide
example : hostFileName "/tmp/a/b.txt" = "b.txt" := by decide
example : qEqCI "AbC" "aBc" = true := by decide
example : qEqCI "AbC" "aBd" = false := by decide
example : qTrim "  hi there " = "hi there" := by decide
example : startsWithCI "FiLE \"x\"" "file" = true := by decide

/-- A session mid-edit: a non-fresh tree (one folder child under root),
`modified = true`, and a previously opened path.  Used to exhibit what a
failed cue load leaves behind. -/
def dirtySession : CoreState :=
  { root := .mk { name := "/", isDirectory := true, isNew := true }
      [.mk { name := "KEEP", isDirectory := true } []]
    modified := true
    currentIsoPath := "/old.iso"
    volumeId := "OLDVOL"
    systemId := "OLDSYS" }

/-- C3 counterexample: loading a missing cue file (open failure) from a
session holding a one-folder tree reports failure but leaves that tree
in place — the session is not a fresh empty tree (whose root has zero
children), contradicting the claim. -/
theorem loadCueSheet_failure_keeps_old_tree :
    (loadIso dirtySession "/d/x.cue" ⟨none, [], false, 0⟩ ⟨none⟩ 0).2 = false ∧
    (loadIso dirtySession "/d/x.cue" ⟨none, [], false, 0⟩ ⟨none⟩ 0).1.root.children.length = 1 ∧
    (loadIso dirtySession "/d/x.cue" ⟨none, [], false, 0⟩ ⟨none⟩ 0).1.modified = true ∧
    (initNewIso 0).root.children.length = 0 := by
  refine ⟨?_, ?_, ?_, rfl⟩ <;> decide

/-- C3 amended: every failing CUE load (missing or unreadable cue file,
or no FILE reference found by the line scan) reports failure and retains
no partial tree: the session is left exactly as it was before the call
(which is a fresh empty tree only if it already was one). -/
theorem loadCueSheet_failure_no_change (s : CoreState) (filePath : String)
    (env : CueEnv) (now : Nat) :
    (env.cueLines = none → loadCueSheet s filePath env now = (s, false)) ∧
    (∀ lines, env.cueLines = some lines → (scanCue lines).2 = "" →
       loadCueSheet s filePath env now = (s, false)) := by
  constructor
  · intro h
    simp [loadCueSheet, h]
  · intro lines hl hscan
    simp [loadCueSheet, hl, hscan]

/-- Witness for amended C3: both failure modes at concrete inputs —
an unopenable cue file, and a cue text with no FILE line. -/
theorem loadCueSheet_failure_no_change_witness :
    loadCueSheet dirtySession "/d/x.cue" ⟨none, [], false, 0⟩ 0 =
      (dirtySession, false) ∧
    loadCueSheet dirtySession "/d/x.cue"
        ⟨some ["TITLE \"T\"", "TRACK 01 AUDIO"], [], false, 0⟩ 0 =
      (dirtySession, false) :=
  ⟨(loadCueSheet_failure_no_change dirtySession "/d/x.cue"
      ⟨none, [], false, 0⟩ 0).1 rfl,
   (loadCueSheet_failure_no_change dirtySession "/d/x.cue"
      ⟨some ["TITLE \"T\"", "TRACK 01 AUDIO"], [], false, 0⟩ 0).2
      ["TITLE \"T\"", "TRACK 01 AUDIO"] rfl (by decide)⟩

/-- A directory whose only child is a *file* named "A" — a legal tree
(sibling names unique) on which the folder-insertion claim fails. -/
def fileChildParent : IsoNode :=
  .mk { name := "/", isDirectory := true } [.mk { name := "A" } []]

/-- C5 counterexample: inserting folder "A" twice into a directory that
already has a *file* child named "A" leaves two children named "A"
(the folder collision scan matches only directory siblings), not
exactly one as the claim states. -/
theorem addFolder_twice_two_children :
    countCI "A"
      (addFolderToDirectory "A" 1
        (addFolderToDirectory "A" 0 fileChildParent false).1
        (addFolderToDirectory "A" 0 fileChildParent false).2).1.children = 2 := by
  decide

/-- C5 amended: for a directory parent satisfying the sibling-uniqueness
invariant and having no *file* child of the given name, inserting a
folder twice leaves exactly one child of that name; the second insertion
returns the tree and the modified flag of the first unchanged. -/
theorem addFolder_idempotent (t : IsoNode) (name : String) (now1 now2 : Nat)
    (m : Bool)
    (hdir : t.info.isDirectory = true)
    (hdist : namesCIDistinct t.children = true)
    (hnofile : hasFileCI name t.children = false) :
    addFolderToDirectory name now2
        (addFolderToDirectory name now1 t m).1
        (addFolderToDirectory name now1 t m).2 =
      addFolderToDirectory name now1 t m ∧
    countCI name (addFolderToDirectory name now1 t m).1.children = 1 := by
  by_cases hd : hasDirCI name t.children = true
  · have h1 : addFolderToDirectory name now1 t m = (t, m) := by
      simp [addFolderToDirectory, hdir, hd]
    rw [h1]
    constructor
    · simp [addFolderToDirectory, hdir, hd]
    · have hle := countCI_le_one name t.children hdist
      have hge := countCI_pos_of_hasDirCI name t.children hd
      show countCI name t.children = 1
      omega
  · simp only [Bool.not_eq_true] at hd
    have h1 : addFolderToDirectory name now1 t m =
        (t.withChildren (t.children ++ [newFolder name now1]), true) := by
      simp [addFolderToDirectory, hdir, hd]
    rw [h1]
    have hchildren : (t.withChildren (t.children ++ [newFolder name now1])).children =
        t.children ++ [newFolder name now1] := by
      cases t; rfl
    have hinfo : (t.withChildren (t.children ++ [newFolder name now1])).info = t.info := by
      cases t; rfl
    constructor
    · have hd2 : hasDirCI name
          (t.withChildren (t.children ++ [newFolder name now1])).children = true := by
        rw [hchildren]
        simp only [hasDirCI, List.any_append, Bool.or_eq_true]
        refine Or.inr ?_
        simp [List.any_cons, newFolder, IsoNode.info, qEqCI_refl]
      simp [addFolderToDirectory, hinfo, hdir, hd2]
    · rw [hchildren]
      have hzero : countCI name t.children = 0 := countCI_zero name t.children hd hnofile
      have hone : (List.filter (fun c => qEqCI c.info.name name) [newFolder name now1]).length = 1 := by
        simp [List.filter_singleton, newFolder, IsoNode.info, qEqCI_refl]
      simp only [countCI, List.filter_append] at hzero ⊢
      rw [List.length_append, hzero, hone]

/-- Witness for amended C5 at a concrete parent (one file child "B",
inserting "A" twice). -/
theorem addFolder_idempotent_witness :
    addFolderToDirectory "A" 2
        (addFolderToDirectory "A" 1
          (.mk { name := "/", isDirectory := true } [.mk { name := "B" } []]) false).1
        (addFolderToDirectory "A" 1
          (.mk { name := "/", isDirectory := true } [.mk { name := "B" } []]) false).2 =
      addFolderToDirectory "A" 1
        (.mk { name := "/", isDirectory := true } [.mk { name := "B" } []]) false ∧
    countCI "A" (addFolderToDirectory "A" 1
        (.mk { name := "/", isDirectory := true } [.mk { name := "B" } []]) false).1.children = 1 :=
  addFolder_idempotent
    (.mk { name := "/", isDirectory := true } [.mk { name := "B" } []])
    "A" 1 2 false rfl (by decide) (by decide)

theorem withChildren_children (t : IsoNode) (cs : List IsoNode) :
    (t.withChildren cs).children = cs := by cases t; rfl

theorem withChildren_info (t : IsoNode) (cs : List IsoNode) :
    (t.withChildren cs).info = t.info := by cases t; rfl

/-- After the overwrite scan has removed the (unique) matching file
child, no case-insensitive match remains. -/
theorem filter_removeFirstFileCI (n : String) (cs : List IsoNode)
    (hdist : namesCIDistinct cs = true) (hfile : hasFileCI n cs = true) :
    (removeFirstFileCI n cs).filter (fun c => qEqCI c.info.name n) = [] := by
  induction cs with
  | nil => simp [hasFileCI] at hfile
  | cons c cs ih =>
    simp only [namesCIDistinct, Bool.and_eq_true, List.all_eq_true] at hdist
    obtain ⟨hall, hrest⟩ := hdist
    by_cases hmatch : (!c.info.isDirectory && qEqCI c.info.name n) = true
    · obtain ⟨-, hcq⟩ := Bool.and_eq_true_iff.mp hmatch
      simp only [removeFirstFileCI, hmatch, if_pos, List.filter_eq_nil_iff]
      intro d hd hdq
      have hcd := qEqCI_of_both hcq hdq
      have := hall d hd
      simp_all
    · simp only [Bool.not_eq_true] at hmatch
      by_cases hcq : qEqCI c.info.name n = true
      · exfalso
        have hcdir : c.info.isDirectory = true := by
          rcases Bool.and_eq_false_iff.mp hmatch with h | h
          · simpa using h
          · simp_all
        simp only [hasFileCI, List.any_cons, Bool.or_eq_true, Bool.and_eq_true] at hfile
        rcases hfile with ⟨hnd, -⟩ | hexists
        · simp_all
        · simp only [List.any_eq_true, Bool.and_eq_true] at hexists
          obtain ⟨d, hd, -, hdq⟩ := hexists
          have hcd := qEqCI_of_both hcq hdq
          have := hall d hd
          simp_all
      · simp only [Bool.not_eq_true] at hcq
        have hftail : hasFileCI n cs = true := by
          simp only [hasFileCI, List.any_cons, Bool.or_eq_true] at hfile
          rcases hfile with hhead | htail
          · simp [hcq] at hhead
          · exact htail
        have hstep : removeFirstFileCI n (c :: cs) = c :: removeFirstFileCI n cs := by
          simp [removeFirstFileCI, hmatch]
        rw [hstep, List.filter_cons]
        simp only [hcq, Bool.false_eq_true, if_false]
        exact ih hrest hftail

/-- Under sibling uniqueness a case-insensitive directory match excludes
any file match of the same name. -/
theorem hasFileCI_eq_false_of_dir (n : String) (cs : List IsoNode)
    (hdist : namesCIDistinct cs = true) (hd : hasDirCI n cs = true) :
    hasFileCI n cs = false := by
  induction cs with
  | nil => simp [hasDirCI] at hd
  | cons c cs ih =>
    simp only [namesCIDistinct, Bool.and_eq_true, List.all_eq_true] at hdist
    obtain ⟨hall, hrest⟩ := hdist
    by_cases hcq : qEqCI c.info.name n = true
    · have htailnil : ∀ d ∈ cs, qEqCI d.info.name n = false := by
        intro d hdd
        by_contra hdq
        simp only [Bool.not_eq_false] at hdq
        have hcd := qEqCI_of_both hcq hdq
        have := hall d hdd
        simp_all
      have htailf : hasFileCI n cs = false := by
        simp only [hasFileCI, List.any_eq_false, Bool.and_eq_true, not_and]
        intro d hdd _
        simp [htailnil d hdd]
      by_cases hcdir : c.info.isDirectory = true
      · have hhead : (!c.info.isDirectory && qEqCI c.info.name n) = false := by
          simp [hcdir]
        simp only [hasFileCI, List.any_cons, hhead, Bool.false_or]
        exact htailf
      · exfalso
        simp only [Bool.not_eq_true] at hcdir
        simp only [hasDirCI, List.any_cons, Bool.or_eq_true, Bool.and_eq_true] at hd
        rcases hd with ⟨h1, -⟩ | hexists
        · simp_all
        · simp only [List.any_eq_true, Bool.and_eq_true] at hexists
          obtain ⟨d, hdd, -, hdq⟩ := hexists
          have := htailnil d hdd
          simp_all
    · simp only [Bool.not_eq_true] at hcq
      have hdtail : hasDirCI n cs = true := by
        simp only [hasDirCI, List.any_cons, Bool.or_eq_true] at hd
        rcases hd with hhead | htail
        · simp [hcq] at hhead
        · exact htail
      have := ih hrest hdtail
      simp only [hasFileCI, List.any_cons, hcq, Bool.and_false, Bool.false_or]
      simp only [hasFileCI] at this
      exact this

/-- C1: for a directory parent (satisfying the sibling-uniqueness
invariant of the data model) and a readable host file whose display name
matches an existing *file* child case-insensitively, `addFileToDirectory`
removes that child and appends a fresh Pending-origin node, leaving
exactly one child of that name, whose size is the host file's byte count
— overwrite, not append; the tree is marked modified. -/
theorem addFile_overwrites (t : IsoNode) (f : HostFile) (bytes : List Nat)
    (m : Bool)
    (hdir : t.info.isDirectory = true)
    (hread : f.content = some bytes)
    (hdist : namesCIDistinct t.children = true)
    (hfile : hasFileCI (hostFileName f.path) t.children = true) :
    (addFileToDirectory f t m).1.children =
      removeFirstFileCI (hostFileName f.path) t.children ++
        [pendingFile (hostFileName f.path) bytes f.mtime] ∧
    (addFileToDirectory f t m).1.children.filter
        (fun c => qEqCI c.info.name (hostFileName f.path)) =
      [pendingFile (hostFileName f.path) bytes f.mtime] ∧
    (pendingFile (hostFileName f.path) bytes f.mtime).info.size = bytes.length ∧
    (pendingFile (hostFileName f.path) bytes f.mtime).info.isNew = true ∧
    (addFileToDirectory f t m).2 = true := by
  have h1 : addFileToDirectory f t m =
      (t.withChildren (removeFirstFileCI (hostFileName f.path) t.children ++
        [pendingFile (hostFileName f.path) bytes f.mtime]), true) := by
    simp [addFileToDirectory, addFileCore, hdir, hread]
  rw [h1]
  refine ⟨withChildren_children .., ?_, rfl, rfl, rfl⟩
  rw [withChildren_children, List.filter_append,
      filter_removeFirstFileCI _ _ hdist hfile]
  simp [List.filter_cons, pendingFile, IsoNode.info, qEqCI_refl]

/-- Witness for C1: overwriting the file child "X" of the root with host
file "/h/x" (3 bytes) leaves exactly the new 3-byte pending node as the
only case-insensitive match. -/
theorem addFile_overwrites_witness :
    (addFileToDirectory ⟨"/h/x", some [1, 2, 3], 5⟩
        (.mk { name := "/", isDirectory := true } [.mk { name := "X" } []])
        false).1.children =
      removeFirstFileCI (hostFileName "/h/x")
          [.mk { name := "X" } []] ++
        [pendingFile (hostFileName "/h/x") [1, 2, 3] 5] ∧
    (addFileToDirectory ⟨"/h/x", some [1, 2, 3], 5⟩
        (.mk { name := "/", isDirectory := true } [.mk { name := "X" } []])
        false).1.children.filter
        (fun c => qEqCI c.info.name (hostFileName "/h/x")) =
      [pendingFile (hostFileName "/h/x") [1, 2, 3] 5] ∧
    (pendingFile (hostFileName "/h/x") [1, 2, 3] 5).info.size = 3 ∧
    (pendingFile (hostFileName "/h/x") [1, 2, 3] 5).info.isNew = true ∧
    (addFileToDirectory ⟨"/h/x", some [1, 2, 3], 5⟩
        (.mk { name := "/", isDirectory := true } [.mk { name := "X" } []])
        false).2 = true :=
  addFile_overwrites
    (.mk { name := "/", isDirectory := true } [.mk { name := "X" } []])
    ⟨"/h/x", some [1, 2, 3], 5⟩ [1, 2, 3] false rfl rfl (by decide) (by decide)

/-- C10: for a directory parent (satisfying the sibling-uniqueness
invariant) whose case-insensitive match for the incoming host file's
display name is a *directory* child, `addFileToDirectory` leaves that
directory child in place and appends the new file node, so the parent
afterwards has exactly two children bearing that name case-insensitively
(the collision scan only matches file siblings, never directories). -/
theorem addFile_ignores_directory_collision (t : IsoNode) (f : HostFile)
    (bytes : List Nat) (m : Bool)
    (hdir : t.info.isDirectory = true)
    (hread : f.content = some bytes)
    (hdist : namesCIDistinct t.children = true)
    (hdirchild : hasDirCI (hostFileName f.path) t.children = true) :
    (addFileToDirectory f t m).1.children =
      t.children ++ [pendingFile (hostFileName f.path) bytes f.mtime] ∧
    countCI (hostFileName f.path) (addFileToDirectory f t m).1.children = 2 ∧
    (addFileToDirectory f t m).2 = true := by
  have hnofile := hasFileCI_eq_false_of_dir (hostFileName f.path) t.children
    hdist hdirchild
  have h1 : addFileToDirectory f t m =
      (t.withChildren (t.children ++
        [pendingFile (hostFileName f.path) bytes f.mtime]), true) := by
    simp [addFileToDirectory, addFileCore, hdir, hread,
      removeFirstFileCI_of_no_match _ _ hnofile]
  rw [h1]
  refine ⟨withChildren_children .., ?_, rfl⟩
  rw [withChildren_children]
  have hle := countCI_le_one (hostFileName f.path) t.children hdist
  have hge := countCI_pos_of_hasDirCI (hostFileName f.path) t.children hdirchild
  have hone : countCI (hostFileName f.path) t.children = 1 := by omega
  simp only [countCI, List.filter_append] at hone ⊢
  rw [List.length_append, hone]
  simp [List.filter_cons, pendingFile, IsoNode.info, qEqCI_refl]

/-- Witness for C10: adding host file "/h/d" to a root whose only child
is a directory named "D" keeps the directory and appends the file,
giving two case-insensitive matches for "d". -/
theorem addFile_ignores_directory_collision_witness :
    (addFileToDirectory ⟨"/h/d", some [7], 4⟩
        (.mk { name := "/", isDirectory := true }
          [.mk { name := "D", isDirectory := true } []]) false).1.children =
      [.mk { name := "D", isDirectory := true } []] ++
        [pendingFile (hostFileName "/h/d") [7] 4] ∧
    countCI (hostFileName "/h/d")
      (addFileToDirectory ⟨"/h/d", some [7], 4⟩
        (.mk { name := "/", isDirectory := true }
          [.mk { name := "D", isDirectory := true } []]) false).1.children = 2 ∧
    (addFileToDirectory ⟨"/h/d", some [7], 4⟩
        (.mk { name := "/", isDirectory := true }
          [.mk { name := "D", isDirectory := true } []]) false).2 = true :=
  addFile_ignores_directory_collision
    (.mk { name := "/", isDirectory := true }
      [.mk { name := "D", isDirectory := true } []])
    ⟨"/h/d", some [7], 4⟩ [7] false rfl rfl (by decide) (by decide)

theorem countNodes_withChildren (t : IsoNode) (cs : List IsoNode) :
    countNodes (t.withChildren cs) = 1 + countList cs := by
  cases t
  simp [IsoNode.withChildren, countNodes]

theorem countList_eraseIdx (cs : List IsoNode) (i : Nat) (c : IsoNode)
    (h : cs[i]? = some c) :
    countList (cs.eraseIdx i) + countNodes c = countList cs := by
  induction cs generalizing i with
  | nil => simp at h
  | cons d ds ih =>
    cases i with
    | zero =>
      simp only [List.getElem?_cons_zero, Option.some.injEq] at h
      subst h
      simp [List.eraseIdx, countList]
      omega
    | succ i =>
      simp only [List.getElem?_cons_succ] at h
      simp only [List.eraseIdx, countList]
      have := ih i h
      omega

theorem countList_modifyIdx (cs : List IsoNode) (i : Nat) (c : IsoNode)
    (f : IsoNode → IsoNode) (h : cs[i]? = some c) :
    countList (modifyIdx f cs i) + countNodes c =
      countList cs + countNodes (f c) := by
  induction cs generalizing i with
  | nil => simp at h
  | cons d ds ih =>
    cases i with
    | zero =>
      simp only [List.getElem?_cons_zero, Option.some.injEq] at h
      subst h
      simp only [modifyIdx, countList]
      omega
    | succ i =>
      simp only [List.getElem?_cons_succ] at h
      simp only [modifyIdx, countList]
      have := ih i h
      omega

/-- Removing a subtree removes exactly its nodes from the total count. -/
theorem removeAt_count (p : List Nat) (t : IsoNode) (i : Nat) (sub : IsoNode)
    (h : subtreeAt t (i :: p) = some sub) :
    countNodes (removeAt p t i) + countNodes sub = countNodes t := by
  induction p generalizing t i sub with
  | nil =>
    simp only [subtreeAt] at h
    cases hx : t.children[i]? with
    | none => rw [hx] at h; simp at h
    | some c =>
      rw [hx] at h
      simp only [subtreeAt, Option.some.injEq] at h
      rw [← h]
      simp only [removeAt]
      rw [countNodes_withChildren]
      have := countList_eraseIdx t.children i c hx
      cases t
      simp only [countNodes, IsoNode.children] at *
      omega
  | cons j p ih =>
    simp only [subtreeAt] at h
    cases hx : t.children[i]? with
    | none => rw [hx] at h; simp at h
    | some c =>
      rw [hx] at h
      have hrec := ih c j sub h
      simp only [removeAt]
      rw [countNodes_withChildren]
      have := countList_modifyIdx t.children i c (fun d => removeAt p d j) hx
      cases t
      simp only [countNodes, IsoNode.children] at *
      omega

/-- C6: removing a node identified by a valid nonempty path detaches it
together with its entire subtree (the total node count drops by exactly
the subtree's size) and marks the tree modified; removing the root (the
empty path — the C++ `node == rootNode` / parentless test) is a no-op. -/
theorem removeNode_removes_subtree (t : IsoNode) (m : Bool) (i : Nat)
    (p : List Nat) (sub : IsoNode)
    (h : subtreeAt t (i :: p) = some sub) :
    removeNode t m (i :: p) = (removeAt p t i, true) ∧
    countNodes (removeAt p t i) + countNodes sub = countNodes t ∧
    removeNode t m [] = (t, m) := by
  refine ⟨?_, removeAt_count p t i sub h, rfl⟩
  simp [removeNode, h]

/-- Witness for C6: removing child 0 (a folder with one file inside) of
a two-child root drops the node count from 4 to 2 and flags the tree. -/
theorem removeNode_removes_subtree_witness :
    removeNode
        (.mk { name := "/", isDirectory := true }
          [.mk { name := "a", isDirectory := true } [.mk { name := "b" } []],
           .mk { name := "c" } []]) false [0] =
      (removeAt []
        (.mk { name := "/", isDirectory := true }
          [.mk { name := "a", isDirectory := true } [.mk { name := "b" } []],
           .mk { name := "c" } []]) 0, true) ∧
    countNodes (removeAt []
        (.mk { name := "/", isDirectory := true }
          [.mk { name := "a", isDirectory := true } [.mk { name := "b" } []],
           .mk { name := "c" } []]) 0) +
      countNodes (.mk { name := "a", isDirectory := true }
        [.mk { name := "b" } []]) =
      countNodes
        (.mk { name := "/", isDirectory := true }
          [.mk { name := "a", isDirectory := true } [.mk { name := "b" } []],
           .mk { name := "c" } []]) ∧
    removeNode
        (.mk { name := "/", isDirectory := true }
          [.mk { name := "a", isDirectory := true } [.mk { name := "b" } []],
           .mk { name := "c" } []]) false [] =
      (.mk { name := "/", isDirectory := true }
          [.mk { name := "a", isDirectory := true } [.mk { name := "b" } []],
           .mk { name := "c" } []], false) :=
  removeNode_removes_subtree
    (.mk { name := "/", isDirectory := true }
      [.mk { name := "a", isDirectory := true } [.mk { name := "b" } []],
       .mk { name := "c" } []]) false 0 []
    (.mk { name := "a", isDirectory := true } [.mk { name := "b" } []])
    rfl

theorem sub64_eq (a b : Nat) (hle : b ≤ a) (hlt : a < 2 ^ 64) :
    sub64 a b = a - b := by
  simp only [sub64]
  omega

/-- C2 counterexample: with the external parser reporting two tracks
whose data starts are sectors 1 and 2 (a cue whose first track's data
does not begin at sector 0) and a 23520-byte companion binary, the two
track offsets are 2352 and 4704 — the first is not 0 — and the sizes sum
to 21168, not the companion's total length 23520. -/
theorem loadCueSheet_two_tracks_counterexample :
    List.map (fun c => c.info.cueOffset)
      (loadCueSheet (initNewIso 0) "/d/x.cue"
        ⟨some ["FILE \"a.bin\" BINARY"], [⟨1, 1⟩, ⟨2, 2⟩], true, 23520⟩
        0).1.root.children = [2352, 4704] ∧
    (2352 : Nat) ≠ 0 ∧
    (List.map (fun c => c.info.size)
      (loadCueSheet (initNewIso 0) "/d/x.cue"
        ⟨some ["FILE \"a.bin\" BINARY"], [⟨1, 1⟩, ⟨2, 2⟩], true, 23520⟩
        0).1.root.children).sum = 21168 ∧
    (21168 : Nat) ≠ 23520 := by
  refine ⟨?_, by decide, ?_, by decide⟩ <;> decide

/-- C2 amended: a two-track CUE load yields exactly two flat track nodes
under root with byte offsets dataStart₁ × 2352 and dataStart₂ × 2352;
the first track's size is the second's offset minus its own, the final
track's size is the companion length minus its offset when the companion
file exists (0 when absent), so the sizes sum to the companion length
minus the *first* track's offset — equal to the companion length exactly
when the first track's data starts at sector 0.  (Stated for
nondecreasing data starts and a companion covering the final offset.) -/
theorem loadCueSheet_two_tracks (s : CoreState) (filePath : String)
    (lines : List String) (n1 n2 d1 d2 L now : Nat)
    (hbin : (scanCue lines).2 ≠ "")
    (hord : d1 ≤ d2) (hlen : d2 * 2352 ≤ L) (hfit : L < 2 ^ 64) :
    (loadCueSheet s filePath ⟨some lines, [⟨n1, d1⟩, ⟨n2, d2⟩], true, L⟩ now).2 = true ∧
    List.map (fun c => c.info.cueOffset)
      (loadCueSheet s filePath
        ⟨some lines, [⟨n1, d1⟩, ⟨n2, d2⟩], true, L⟩ now).1.root.children =
      [d1 * 2352, d2 * 2352] ∧
    List.map (fun c => c.info.size)
      (loadCueSheet s filePath
        ⟨some lines, [⟨n1, d1⟩, ⟨n2, d2⟩], true, L⟩ now).1.root.children =
      [d2 * 2352 - d1 * 2352, L - d2 * 2352] ∧
    (List.map (fun c => c.info.size)
      (loadCueSheet s filePath
        ⟨some lines, [⟨n1, d1⟩, ⟨n2, d2⟩], true, L⟩ now).1.root.children).sum =
      L - d1 * 2352 ∧
    List.map (fun c => c.info.size)
      (loadCueSheet s filePath
        ⟨some lines, [⟨n1, d1⟩, ⟨n2, d2⟩], false, L⟩ now).1.root.children =
      [d2 * 2352 - d1 * 2352, 0] := by
  have hsc : ((scanCue lines).2 == "") = false := beq_eq_false_iff_ne.mpr hbin
  have hmul : d1 * 2352 ≤ d2 * 2352 := Nat.mul_le_mul_right _ hord
  have h1 : sub64 (d2 * 2352) (d1 * 2352) = d2 * 2352 - d1 * 2352 :=
    sub64_eq _ _ hmul (by omega)
  have h2 : sub64 L (d2 * 2352) = L - d2 * 2352 := sub64_eq _ _ hlen hfit
  have hflag :
      (loadCueSheet s filePath ⟨some lines, [⟨n1, d1⟩, ⟨n2, d2⟩], true, L⟩ now).2 = true := by
    simp [loadCueSheet, hsc]
  have hoffs : List.map (fun c => c.info.cueOffset)
      (loadCueSheet s filePath
        ⟨some lines, [⟨n1, d1⟩, ⟨n2, d2⟩], true, L⟩ now).1.root.children =
      [d1 * 2352, d2 * 2352] := by
    simp [loadCueSheet, hsc, withChildren_children, initNewIso, backfillSizes,
      cueTrackNode, IsoNode.info, h1, h2]
  have hsizes : List.map (fun c => c.info.size)
      (loadCueSheet s filePath
        ⟨some lines, [⟨n1, d1⟩, ⟨n2, d2⟩], true, L⟩ now).1.root.children =
      [d2 * 2352 - d1 * 2352, L - d2 * 2352] := by
    simp [loadCueSheet, hsc, withChildren_children, initNewIso, backfillSizes,
      cueTrackNode, IsoNode.info, h1, h2]
  have habs : List.map (fun c => c.info.size)
      (loadCueSheet s filePath
        ⟨some lines, [⟨n1, d1⟩, ⟨n2, d2⟩], false, L⟩ now).1.root.children =
      [d2 * 2352 - d1 * 2352, 0] := by
    simp [loadCueSheet, hsc, withChildren_children, initNewIso, backfillSizes,
      cueTrackNode, IsoNode.info, h1, h2]
  refine ⟨hflag, hoffs, hsizes, ?_, habs⟩
  rw [hsizes]
  simp only [List.sum_cons, List.sum_nil]
  omega

/-- Witness for amended C2: a standard two-track cue (data starts 0 and
2, companion of 23520 bytes) gives offsets 0 and 4704 and sizes 4704 and
18816 summing to the full companion length. -/
theorem loadCueSheet_two_tracks_witness :
    (loadCueSheet (initNewIso 0) "/d/x.cue"
      ⟨some ["FILE \"a.bin\" BINARY"], [⟨1, 0⟩, ⟨2, 2⟩], true, 23520⟩ 0).2 = true ∧
    List.map (fun c => c.info.cueOffset)
      (loadCueSheet (initNewIso 0) "/d/x.cue"
        ⟨some ["FILE \"a.bin\" BINARY"], [⟨1, 0⟩, ⟨2, 2⟩], true, 23520⟩
        0).1.root.children = [0 * 2352, 2 * 2352] ∧
    List.map (fun c => c.info.size)
      (loadCueSheet (initNewIso 0) "/d/x.cue"
        ⟨some ["FILE \"a.bin\" BINARY"], [⟨1, 0⟩, ⟨2, 2⟩], true, 23520⟩
        0).1.root.children = [2 * 2352 - 0 * 2352, 23520 - 2 * 2352] ∧
    (List.map (fun c => c.info.size)
      (loadCueSheet (initNewIso 0) "/d/x.cue"
        ⟨some ["FILE \"a.bin\" BINARY"], [⟨1, 0⟩, ⟨2, 2⟩], true, 23520⟩
        0).1.root.children).sum = 23520 - 0 * 2352 ∧
    List.map (fun c => c.info.size)
      (loadCueSheet (initNewIso 0) "/d/x.cue"
        ⟨some ["FILE \"a.bin\" BINARY"], [⟨1, 0⟩, ⟨2, 2⟩], false, 23520⟩
        0).1.root.children = [2 * 2352 - 0 * 2352, 0] :=
  loadCueSheet_two_tracks (initNewIso 0) "/d/x.cue"
    ["FILE \"a.bin\" BINARY"] 1 2 0 2 23520 0
    (by decide) (by decide) (by decide) (by decide)

mutual
/-- A host entry is clean when every file in it is readable and every
directory listing in it has pairwise case-insensitively distinct names
(the well-formed host trees the import claim quantifies over). -/
def cleanEntry : HostEntry → Bool
  | .file _ c _ => c.isSome
  | .dir _ ents => cleanEntries ents

/-- Clean listing: clean entries with pairwise distinct names. -/
def cleanEntries : List HostEntry → Bool
  | [] => true
  | e :: es =>
    cleanEntry e && es.all (fun d => ! qEqCI e.name d.name) && cleanEntries es
end

mutual
/-- The disc node that importing one clean host entry produces: files
become Pending-origin file nodes, directories become new folders holding
their mirrored listing. -/
def mirrorEntry (now : Nat) : HostEntry → IsoNode
  | .file n c mt => pendingFile n (c.getD []) mt
  | .dir n ents =>
    .mk { name := n, isDirectory := true, date := now, isNew := true }
      (mirrorEntries now ents)

/-- Mirror of a clean host listing. -/
def mirrorEntries (now : Nat) : List HostEntry → List IsoNode
  | [] => []
  | e :: es => mirrorEntry now e :: mirrorEntries now es
end

theorem withChildren_withChildren (t : IsoNode) (a b : List IsoNode) :
    (t.withChildren a).withChildren b = t.withChildren b := by
  cases t; rfl

theorem hasFileCI_of_pointwise (n : String) (cs : List IsoNode)
    (h : ∀ c ∈ cs, qEqCI c.info.name n = false) : hasFileCI n cs = false := by
  simp only [hasFileCI, List.any_eq_false, Bool.and_eq_true, not_and]
  intro c hc _
  simp [h c hc]

theorem hasDirCI_of_pointwise (n : String) (cs : List IsoNode)
    (h : ∀ c ∈ cs, qEqCI c.info.name n = false) : hasDirCI n cs = false := by
  simp only [hasDirCI, List.any_eq_false, Bool.and_eq_true, not_and]
  intro c hc _
  simp [h c hc]

theorem findExactDirIdx_concat (n : String) (now : Nat) (cs : List IsoNode)
    (h : ∀ c ∈ cs, (c.info.isDirectory && (c.info.name == n)) = false) :
    findExactDirIdx n (cs ++ [newFolder n now]) = some cs.length := by
  induction cs with
  | nil => simp [findExactDirIdx, newFolder, IsoNode.info]
  | cons c cs ih =>
    have hc := h c (by simp)
    have ih2 := ih (fun d hd => h d (by simp [hd]))
    simp [findExactDirIdx, hc, ih2]

/-- Without a case-insensitive directory match the exact-name directory
lookup finds nothing among the existing children. -/
theorem exact_scan_false_of_no_dirCI (n : String) (cs : List IsoNode)
    (h : hasDirCI n cs = false) :
    ∀ c ∈ cs, (c.info.isDirectory && (c.info.name == n)) = false := by
  intro c hc
  simp only [hasDirCI, List.any_eq_false, Bool.and_eq_true, not_and] at h
  by_cases hcd : c.info.isDirectory = true
  · have hq : ¬ qEqCI c.info.name n = true := h c hc hcd
    have hne : (c.info.name == n) = false := by
      by_contra hcon
      simp only [Bool.not_eq_false, beq_iff_eq] at hcon
      rw [hcon] at hq
      exact hq (qEqCI_refl n)
    simp [hne]
  · simp only [Bool.not_eq_true] at hcd
    simp [hcd]

/-- A pointwise case-insensitive mismatch also rules out exact matches. -/
theorem exact_scan_false_of_pointwise (n : String) (cs : List IsoNode)
    (h : ∀ c ∈ cs, qEqCI c.info.name n = false) :
    ∀ c ∈ cs, (c.info.isDirectory && (c.info.name == n)) = false := by
  intro c hc
  have hq := h c hc
  have hne : (c.info.name == n) = false := by
    by_contra hcon
    simp only [Bool.not_eq_false, beq_iff_eq] at hcon
    rw [hcon] at hq
    simp [qEqCI_refl] at hq
  simp [hne]

theorem set_concat_length (cs : List IsoNode) (x y : IsoNode) :
    (cs ++ [x]).set cs.length y = cs ++ [y] := by
  induction cs with
  | nil => rfl
  | cons c cs ih => simp [List.set, ih]

theorem getElem?_concat_len (cs : List IsoNode) (x : IsoNode) :
    (cs ++ [x])[cs.length]? = some x := by
  simp

/-- Clean import produces exactly the mirror of the host listing,
appended to the target's children (fuel-indexed induction on the host
subtree size). -/
theorem importEntries_clean_aux (k : Nat) :
    ∀ (es : List HostEntry), sizeOf es ≤ k →
    ∀ (t : IsoNode) (now : Nat), t.info.isDirectory = true →
    cleanEntries es = true →
    (∀ e ∈ es, ∀ c ∈ t.children, qEqCI c.info.name e.name = false) →
    importEntries es t true now =
      (t.withChildren (t.children ++ mirrorEntries now es), true) := by
  induction k with
  | zero =>
    intro es hsz
    exfalso
    have : 1 ≤ sizeOf es := by cases es <;> simp_arith
    omega
  | succ k ih =>
    intro es hsz t now hdir hclean hno
    cases es with
    | nil =>
      simp only [importEntries, mirrorEntries, List.append_nil]
      cases t; rfl
    | cons e es =>
      cases e with
      | file n c mt =>
        simp only [cleanEntries, Bool.and_eq_true, List.all_eq_true] at hclean
        obtain ⟨⟨hce, hdistinct⟩, hcles⟩ := hclean
        simp only [cleanEntry] at hce
        obtain ⟨bytes, rfl⟩ := Option.isSome_iff_exists.mp hce
        have hnohead : ∀ c2 ∈ t.children, qEqCI c2.info.name n = false := by
          intro c2 hc2
          have := hno (.file n (some bytes) mt) (by simp) c2 hc2
          simpa [HostEntry.name] using this
        have hstep : addFileCore n (some bytes) mt t true =
            (t.withChildren (t.children ++ [pendingFile n bytes mt]), true) := by
          simp [addFileCore, hdir,
            removeFirstFileCI_of_no_match _ _ (hasFileCI_of_pointwise n t.children hnohead)]
        have hszrest : sizeOf es ≤ k := by
          simp only [List.cons.sizeOf_spec, HostEntry.file.sizeOf_spec] at hsz
          omega
        have hrest := ih es hszrest
          (t.withChildren (t.children ++ [pendingFile n bytes mt])) now
          (by rw [withChildren_info]; exact hdir) hcles ?_
        · simp only [importEntries, hstep]
          rw [hrest, withChildren_withChildren, withChildren_children]
          simp [mirrorEntries, mirrorEntry, List.append_assoc]
        · intro e2 he2 c2 hc2
          rw [withChildren_children] at hc2
          rcases List.mem_append.mp hc2 with hold | hnew
          · exact hno e2 (by simp [he2]) c2 hold
          · have : c2 = pendingFile n bytes mt := by simpa using hnew
            subst this
            have := hdistinct e2 he2
            simp only [Bool.not_eq_true] at this
            simpa [pendingFile, IsoNode.info, HostEntry.name] using this
      | dir n ents =>
        simp only [cleanEntries, Bool.and_eq_true, List.all_eq_true] at hclean
        obtain ⟨⟨hce, hdistinct⟩, hcles⟩ := hclean
        simp only [cleanEntry] at hce
        have hnohead : ∀ c2 ∈ t.children, qEqCI c2.info.name n = false := by
          intro c2 hc2
          have := hno (.dir n ents) (by simp) c2 hc2
          simpa [HostEntry.name] using this
        have haddf : addFolderToDirectory n now t true =
            (t.withChildren (t.children ++ [newFolder n now]), true) := by
          simp [addFolderToDirectory, hdir,
            hasDirCI_of_pointwise n t.children hnohead]
        have hfind := findExactDirIdx_concat n now t.children
          (exact_scan_false_of_pointwise n t.children hnohead)
        have hget := getElem?_concat_len t.children (newFolder n now)
        have hszents : sizeOf ents ≤ k := by
          simp only [List.cons.sizeOf_spec, HostEntry.dir.sizeOf_spec] at hsz
          omega
        have hinner := ih ents hszents (newFolder n now) now rfl hce
          (by intro e2 he2 c2 hc2; simp [newFolder, IsoNode.children] at hc2)
        have hinner2 : importEntries ents (newFolder n now) true now =
            (mirrorEntry now (.dir n ents), true) := by
          rw [hinner]
          simp [newFolder, IsoNode.withChildren, IsoNode.children, mirrorEntry]
        have hrec : importDirRec n ents t true now =
            (t.withChildren (t.children ++ [mirrorEntry now (.dir n ents)]), true) := by
          simp only [importDirRec, haddf, withChildren_children, hfind, hget,
            hinner2, set_concat_length, withChildren_withChildren]
        have hszrest : sizeOf es ≤ k := by
          simp only [List.cons.sizeOf_spec, HostEntry.dir.sizeOf_spec] at hsz
          omega
        have hrest := ih es hszrest
          (t.withChildren (t.children ++ [mirrorEntry now (.dir n ents)])) now
          (by rw [withChildren_info]; exact hdir) hcles ?_
        · simp only [importEntries, hrec]
          rw [hrest, withChildren_withChildren, withChildren_children]
          simp [mirrorEntries, List.append_assoc]
        · intro e2 he2 c2 hc2
          rw [withChildren_children] at hc2
          rcases List.mem_append.mp hc2 with hold | hnew
          · exact hno e2 (by simp [he2]) c2 hold
          · have : c2 = mirrorEntry now (.dir n ents) := by simpa using hnew
            subst this
            have := hdistinct e2 he2
            simp only [Bool.not_eq_true] at this
            simpa [mirrorEntry, IsoNode.info, HostEntry.name] using this

/-- Clean `importDirectoryRecursive` with no case-insensitive directory
collision at the target: the new folder is created and filled with the
mirror of the host listing. -/
theorem importDirRec_clean (name : String) (entries : List HostEntry)
    (t : IsoNode) (m : Bool) (now : Nat)
    (hdir : t.info.isDirectory = true)
    (hclean : cleanEntries entries = true)
    (hnodir : hasDirCI name t.children = false) :
    importDirRec name entries t m now =
      (t.withChildren (t.children ++ [mirrorEntry now (.dir name entries)]), true) := by
  have haddf : addFolderToDirectory name now t m =
      (t.withChildren (t.children ++ [newFolder name now]), true) := by
    simp [addFolderToDirectory, hdir, hnodir]
  have hfind := findExactDirIdx_concat name now t.children
    (exact_scan_false_of_no_dirCI name t.children hnodir)
  have hget := getElem?_concat_len t.children (newFolder name now)
  have hinner := importEntries_clean_aux (sizeOf entries) entries (Nat.le_refl _)
    (newFolder name now) now rfl hclean
    (by intro e2 he2 c2 hc2; simp [newFolder, IsoNode.children] at hc2)
  have hinner2 : importEntries entries (newFolder name now) true now =
      (mirrorEntry now (.dir name entries), true) := by
    rw [hinner]
    simp [newFolder, IsoNode.withChildren, IsoNode.children, mirrorEntry]
  simp only [importDirRec, haddf, withChildren_children, hfind, hget,
    hinner2, set_concat_length, withChildren_withChildren]

/-- C4 amended: `importDirectory` on a clean host directory creates one
new folder named after the host directory's final path segment and
mirrors the host subtree beneath it when the target has no
case-insensitive *directory* sibling of that name.  When such a
directory sibling exists, folder creation is a no-op and the import then
proceeds into the first directory child whose name matches exactly
(case-sensitively); only when no exact-name directory child exists does
the whole import abort with the tree unchanged (a same-named file
sibling aborts nothing, and an exact-case directory sibling absorbs
the import instead of stopping it). -/
theorem importDirectory_mirror_or_abort (name : String)
    (entries : List HostEntry) (t : IsoNode) (m : Bool) (now : Nat)
    (hdir : t.info.isDirectory = true)
    (hclean : cleanEntries entries = true) :
    (hasDirCI name t.children = false →
       importDirectory name entries t m now =
         (t.withChildren
           (t.children ++ [mirrorEntry now (.dir name entries)]), true)) ∧
    (hasDirCI name t.children = true →
     findExactDirIdx name t.children = none →
       importDirectory name entries t m now = (t, true)) := by
  constructor
  · intro hnodir
    simp only [importDirectory, hdir, Bool.not_true, Bool.false_eq_true,
      if_false, ite_false]
    rw [importDirRec_clean name entries t m now hdir hclean hnodir]
  · intro hhasdir hnone
    have haddf : addFolderToDirectory name now t m = (t, m) := by
      simp [addFolderToDirectory, hdir, hhasdir]
    simp only [importDirectory, hdir, Bool.not_true, Bool.false_eq_true,
      if_false, ite_false]
    simp only [importDirRec, haddf, hnone]

/-- C4 counterexample: the target root already has a directory child
named exactly "d"; importing a host directory "d" containing one
readable file "f" does *not* abort — the file is imported into the
pre-existing child (its child count goes from 0 to 1), contradicting
the claim that a pre-existing sibling of that name aborts the whole
operation with nothing imported. -/
theorem importDirectory_merges_into_existing :
    List.map (fun c => c.children.length)
      (importDirectory "d" [.file "f" (some [65]) 7]
        (.mk { name := "/", isDirectory := true }
          [.mk { name := "d", isDirectory := true } []]) false 0).1.children =
      [1] ∧
    List.map (fun c => c.children.length)
      (IsoNode.mk { name := "/", isDirectory := true }
        [.mk { name := "d", isDirectory := true } []]).children = [0] := by
  constructor
  · simp [importDirectory, importDirRec, importEntries, addFolderToDirectory,
      hasDirCI, qEqCI, foldCaseNat, findExactDirIdx, addFileCore, pendingFile,
      removeFirstFileCI, IsoNode.info, IsoNode.children, IsoNode.withChildren]
  · decide

/-- Witness for amended C4: importing host directory "E" (one file, one
subdirectory with one nested file) into a fresh root mirrors the subtree
under a new folder "E"; importing "foo" into a root whose only directory
child is "FOO" (a case-insensitive but not exact match) aborts with the
tree unchanged. -/
theorem importDirectory_mirror_or_abort_witness :
    importDirectory "E"
        [.file "f" (some [65, 66]) 7, .dir "sub" [.file "g" (some [1]) 2]]
        (.mk { name := "/", isDirectory := true } []) false 0 =
      ((IsoNode.mk { name := "/", isDirectory := true } []).withChildren
        ([] ++ [mirrorEntry 0
          (.dir "E" [.file "f" (some [65, 66]) 7,
                     .dir "sub" [.file "g" (some [1]) 2]])]), true) ∧
    importDirectory "foo" [.file "f" (some [65]) 7]
        (.mk { name := "/", isDirectory := true }
          [.mk { name := "FOO", isDirectory := true } []]) false 0 =
      (.mk { name := "/", isDirectory := true }
        [.mk { name := "FOO", isDirectory := true } []], true) :=
  ⟨(importDirectory_mirror_or_abort "E"
      [.file "f" (some [65, 66]) 7, .dir "sub" [.file "g" (some [1]) 2]]
      (.mk { name := "/", isDirectory := true } []) false 0 rfl
      (by decide)).1 (by decide),
   (importDirectory_mirror_or_abort "foo" [.file "f" (some [65]) 7]
      (.mk { name := "/", isDirectory := true }
        [.mk { name := "FOO", isDirectory := true } []]) false 0 rfl
      (by decide)).2 (by decide) (by decide)⟩
